import Mathlib

/-!
Verification of the change-tracking and history-serialization layer of
`bonsai-trie` (`src/changes.rs`): the `Change` value, the `ChangeBatch`
accumulator with its merge (`insert_in_place`) and codec
(`serialize` / `deserialize`) algorithms, and the `ChangeStore` wrapper.

Modelling conventions:
* Bytes are `Nat`s (only equality is ever used on byte values, never
  arithmetic, so no modular reduction is needed).
* The `HashMap<TrieKey, Change>` inside `ChangeBatch` is modelled as an
  association list iterated in insertion order; `Entry::Vacant` insertion
  appends at the end, `Entry::Occupied` mutates in place.  This is a
  deterministic refinement of the unspecified hash-map iteration order.
* `TrieKey` and the commit-identifier trait `Id` are external collaborators
  (`src/trie.rs`, `src/id.rs` are not part of the analysed sources).
  Modelled from the spec: a trie key is a variant tag byte plus a byte
  payload, with `as_slice` returning the payload, `Into<u8>` returning the
  variant, and `from_variant_and_bytes` the inverse reconstruction; an
  identifier is consumed only through `to_bytes()`, so a commit identifier
  is represented directly by its byte sequence.
* The two `panic!` sites of `deserialize` ("Invalid key format" and
  "Invalid change type") are the fallible part of the code; following the
  spec's error taxonomy they are modelled as the `Except` error values
  `MalformedKey` and `UnknownSideTag`.
-/

namespace Bonsai

/-- A byte string (`SByteVec` in the source). -/
abbrev Bytes := List Nat

/-- Modelled from the spec: the external `TrieKey` collaborator type, a
variant tag byte plus a raw byte payload (`src/trie.rs` is not among the
analysed sources). -/
structure TrieKey where
  variant : Nat
  payload : Bytes
deriving DecidableEq, Repr

/-- `TrieKey::from_variant_and_bytes`. Modelled from the spec: reconstruction
from the variant byte and the payload bytes. -/
def TrieKey.from_variant_and_bytes (variant : Nat) (payload : Bytes) : TrieKey :=
  ⟨variant, payload⟩

/-- `Change`: optional value before and optional value after one version's
mutations of one trie key. -/
structure Change where
  old_value : Option Bytes
  new_value : Option Bytes
deriving DecidableEq, Repr

/-- `Change::default()`: both sides absent. -/
def Change.default : Change := ⟨none, none⟩

/-- `ChangeBatch`: the `HashMap<TrieKey, Change>` modelled as an association
list in insertion order. -/
abbrev ChangeBatch := List (TrieKey × Change)

/-- `KEY_SEPARATOR` from `changes.rs`. -/
def KEY_SEPARATOR : Nat := 0x00

/-- `NEW_VALUE` side tag from `changes.rs`. -/
def NEW_VALUE : Nat := 0x00

/-- `OLD_VALUE` side tag from `changes.rs`. -/
def OLD_VALUE : Nat := 0x01

/-- Map lookup on the association-list model (the `HashMap` lookup that
`entry` performs). -/
def findChange? : ChangeBatch → TrieKey → Option Change
  | [], _ => none
  | (k', c) :: rest, k => if k' = k then some c else findChange? rest k

/-- `ChangeBatch::insert_in_place`: on an occupied entry, keep the existing
`old_value` unless it is absent, and unconditionally overwrite `new_value`;
on a vacant entry, insert the incoming change verbatim. -/
def insert_in_place : ChangeBatch → TrieKey → Change → ChangeBatch
  | [], k, c => [(k, c)]
  | (k', e) :: rest, k, c =>
    if k' = k then
      (k', ⟨e.old_value.or c.old_value, c.new_value⟩) :: rest
    else
      (k', e) :: insert_in_place rest k c

/-- The persisted record key for one side of one trie key:
`id_bytes ++ [KEY_SEPARATOR] ++ payload ++ [variant, side]`. -/
def recordKey (id : Bytes) (k : TrieKey) (side : Nat) : Bytes :=
  id ++ KEY_SEPARATOR :: (k.payload ++ [k.variant, side])

/-- The records `ChangeBatch::serialize` emits for a single map entry (the
body of its `flat_map` closure): nothing when both sides are present and
equal, otherwise one record per present side, old before new. -/
def serializeEntry (id : Bytes) (k : TrieKey) (c : Change) : List (Bytes × Bytes) :=
  match c.old_value, c.new_value with
  | some ov, some nv =>
    if ov = nv then []
    else [(recordKey id k OLD_VALUE, ov), (recordKey id k NEW_VALUE, nv)]
  | some ov, none => [(recordKey id k OLD_VALUE, ov)]
  | none, some nv => [(recordKey id k NEW_VALUE, nv)]
  | none, none => []

/-- `ChangeBatch::serialize`: flat-map of `serializeEntry` over the map in
iteration order. -/
def ChangeBatch.serialize (b : ChangeBatch) (id : Bytes) : List (Bytes × Bytes) :=
  b.flatMap fun e => serializeEntry id e.1 e.2

/-- The error taxonomy of `deserialize` (spec §7); in the source these are
the panics "Invalid key format" and "Invalid change type" respectively. -/
inductive DeserializeError where
  | MalformedKey
  | UnknownSideTag
deriving DecidableEq, Repr

/-- The loop state of `ChangeBatch::deserialize`: the batch built so far,
the accumulating change, and the last trie key seen. -/
structure DeState where
  batch : ChangeBatch
  current : Change
  lastKey : Option TrieKey
deriving DecidableEq, Repr

/-- One iteration of the `deserialize` loop over one record: length check,
pop the side tag and the variant tag, slice the payload after
`id.len() + 1`, flush the accumulated change when the key switches, then
record the value on the side named by the tag. -/
def deserializeStep (idLen : Nat) (s : DeState) (r : Bytes × Bytes) :
    Except DeserializeError DeState :=
  if r.1.length < idLen + 3 then
    Except.error DeserializeError.MalformedKey
  else
    let change_type := r.1.getLastD 0
    let key_type := r.1.dropLast.getLastD 0
    let change_key : TrieKey :=
      TrieKey.from_variant_and_bytes key_type (r.1.dropLast.dropLast.drop (idLen + 1))
    let s' : DeState :=
      match s.lastKey with
      | some lk =>
        if lk ≠ change_key then
          ⟨insert_in_place s.batch lk s.current, Change.default, s.lastKey⟩
        else s
      | none => s
    if change_type = NEW_VALUE then
      Except.ok ⟨s'.batch, { s'.current with new_value := some r.2 }, some change_key⟩
    else if change_type = OLD_VALUE then
      Except.ok ⟨s'.batch, { s'.current with old_value := some r.2 }, some change_key⟩
    else
      Except.error DeserializeError.UnknownSideTag

/-- The record loop of `ChangeBatch::deserialize`. -/
def deserializeLoop (idLen : Nat) :
    DeState → List (Bytes × Bytes) → Except DeserializeError DeState
  | s, [] => Except.ok s
  | s, r :: rs =>
    match deserializeStep idLen s r with
    | Except.ok s' => deserializeLoop idLen s' rs
    | Except.error e => Except.error e

/-- The final flush after the loop of `deserialize`: insert the last
accumulated change if any side of it is present. -/
def finishDe (s : DeState) : ChangeBatch :=
  match s.lastKey with
  | some lk =>
    if s.current.new_value.isSome || s.current.old_value.isSome then
      insert_in_place s.batch lk s.current
    else s.batch
  | none => s.batch

/-- `ChangeBatch::deserialize`: run the record loop from the empty state and
apply the final flush. -/
def ChangeBatch.deserialize (id : Bytes) (changes : List (Bytes × Bytes)) :
    Except DeserializeError ChangeBatch :=
  match deserializeLoop id.length ⟨[], Change.default, none⟩ changes with
  | Except.ok s => Except.ok (finishDe s)
  | Except.error e => Except.error e

instance {ε α : Type _} [DecidableEq ε] [DecidableEq α] : DecidableEq (Except ε α) := fun x y =>
  match x, y with
  | Except.ok a, Except.ok b => decidable_of_iff (a = b) (by simp)
  | Except.error a, Except.error b => decidable_of_iff (a = b) (by simp)
  | Except.ok _, Except.error _ => Decidable.isFalse (by simp)
  | Except.error _, Except.ok _ => Decidable.isFalse (by simp)

/-- `ChangeStore<ID>`: the committed-identifier queue (newest at the back)
plus the open batch. -/
structure ChangeStore (ID : Type) where
  id_queue : List ID
  current_changes : ChangeBatch

/-- `ChangeStore::new()`: empty queue, empty open batch. -/
def ChangeStore.new (ID : Type) : ChangeStore ID := ⟨[], []⟩

/-- The coalescing that `insert_in_place` applies on an occupied entry. -/
def mergeChange (e c : Change) : Change :=
  ⟨e.old_value.or c.old_value, c.new_value⟩

/-- A change with at least one side present (not inert). -/
def nonInert (c : Change) : Prop :=
  c.old_value.isSome = true ∨ c.new_value.isSome = true

instance (c : Change) : Decidable (nonInert c) := by
  unfold nonInert; infer_instance

/-- A map entry whose change is a net no-op: both sides present and equal. -/
def isNoOpEntry (e : TrieKey × Change) : Bool :=
  match e.2.old_value, e.2.new_value with
  | some ov, some nv => ov = nv
  | _, _ => false

/-- A record that passes both per-record checks of the `deserialize` loop:
its key is long enough and its trailing side tag is recognized. -/
def wellFormedRecord (idLen : Nat) (r : Bytes × Bytes) : Prop :=
  idLen + 3 ≤ r.1.length ∧ (r.1.getLastD 0 = NEW_VALUE ∨ r.1.getLastD 0 = OLD_VALUE)

instance (idLen : Nat) (r : Bytes × Bytes) : Decidable (wellFormedRecord idLen r) := by
  unfold wellFormedRecord; infer_instance

-- Sanity checks of the embedding on the spec's concrete scenarios.

-- Concrete scenario 1: last write wins on new_value.
example :
    findChange?
      (insert_in_place (insert_in_place [] ⟨0, [1]⟩ ⟨none, some [65]⟩) ⟨0, [1]⟩
        ⟨none, some [66]⟩) ⟨0, [1]⟩ = some ⟨none, some [66]⟩ := by decide

-- Concrete scenario 2: merge produces {old:"X", new:"X"}, which serializes to nothing.
example :
    ChangeBatch.serialize
      (insert_in_place (insert_in_place [] ⟨0, [1]⟩ ⟨some [88], some [89]⟩) ⟨0, [1]⟩
        ⟨some [90], some [88]⟩) [7] = [] := by decide

-- Concrete scenario 3: the bit-exact record format.
example :
    ChangeBatch.serialize [(⟨2, [1, 2, 3]⟩, ⟨some [88], some [89]⟩)] [7] =
      [([7, 0, 1, 2, 3, 2, 1], [88]), ([7, 0, 1, 2, 3, 2, 0], [89])] := by decide

-- Concrete scenario 4: a lone "new" record deserializes to {old:absent, new:value}.
example :
    ChangeBatch.deserialize [7] [([7, 0, 1, 2, 3, 2, 0], [89])] =
      Except.ok [(⟨2, [1, 2, 3]⟩, ⟨none, some [89]⟩)] := by decide

-- Round trip on a two-sided change.
example :
    ChangeBatch.deserialize [7]
      (ChangeBatch.serialize [(⟨2, [1, 2, 3]⟩, ⟨some [88], some [89]⟩)] [7]) =
      Except.ok [(⟨2, [1, 2, 3]⟩, ⟨some [88], some [89]⟩)] := by decide

-- The malformed-key and unknown-side-tag failures.
example :
    ChangeBatch.deserialize [7] [([7, 0], [88])] =
      Except.error DeserializeError.MalformedKey := by decide

example :
    ChangeBatch.deserialize [7] [([7, 0, 1, 2, 3, 2, 9], [88])] =
      Except.error DeserializeError.UnknownSideTag := by decide

/-! ## Helper lemmas about `insert_in_place` and `findChange?` -/

theorem findChange?_insert_self_of_none {b : ChangeBatch} {k : TrieKey} (c : Change)
    (h : findChange? b k = none) :
    findChange? (insert_in_place b k c) k = some c := by
  induction b with
  | nil => simp [insert_in_place, findChange?]
  | cons e rest ih =>
    obtain ⟨k', e'⟩ := e
    by_cases hk : k' = k
    · simp [findChange?, hk] at h
    · simp only [findChange?, hk, if_false] at h
      simp [insert_in_place, hk, findChange?, ih h]

theorem findChange?_insert_self_of_some {b : ChangeBatch} {k : TrieKey} {e : Change}
    (c : Change) (h : findChange? b k = some e) :
    findChange? (insert_in_place b k c) k = some (mergeChange e c) := by
  induction b with
  | nil => simp [findChange?] at h
  | cons hd rest ih =>
    obtain ⟨k', e'⟩ := hd
    by_cases hk : k' = k
    · simp only [findChange?, hk, if_true] at h
      cases h
      simp [insert_in_place, hk, findChange?, mergeChange]
    · simp only [findChange?, hk, if_false] at h
      simp [insert_in_place, hk, findChange?, ih h]

theorem findChange?_foldl_insert (l : List Change) :
    ∀ {b : ChangeBatch} {k : TrieKey} {e : Change}, findChange? b k = some e →
      findChange? (l.foldl (fun acc c => insert_in_place acc k c) b) k
        = some (l.foldl mergeChange e) := by
  induction l with
  | nil => intro b k e h; simpa using h
  | cons c t ih =>
    intro b k e h
    simp only [List.foldl_cons]
    exact ih (findChange?_insert_self_of_some c h)

theorem foldl_mergeChange_eq (t : List Change) :
    ∀ e : Change,
      t.foldl mergeChange e =
        ⟨e.old_value.or (t.findSome? Change.old_value), (t.getLastD e).new_value⟩ := by
  induction t with
  | nil =>
    intro e
    cases e
    simp [List.findSome?_nil]
  | cons c t ih =>
    intro e
    simp only [List.foldl_cons]
    rw [ih (mergeChange e c)]
    have hfind : (c :: t).findSome? Change.old_value
        = c.old_value.or (t.findSome? Change.old_value) := by
      rcases h : c.old_value with _ | v <;> simp [List.findSome?_cons, h, Option.or]
    have hlast : (t.getLastD (mergeChange e c)).new_value = ((c :: t).getLastD e).new_value := by
      cases t with
      | nil => simp [List.getLastD_nil, List.getLastD_cons, mergeChange]
      | cons d t' =>
        rw [List.getLastD_cons, List.getLastD_cons, List.getLastD_cons]
    rw [hfind, ← hlast]
    simp [mergeChange, Option.or_assoc]

/-- C2: inserting changes `C1, …, Cn` (n ≥ 1) in sequence via
`insert_in_place` for a key `k` the batch did not previously contain yields,
for `k`, an entry whose `old_value` is the first non-absent `Ci.old_value`
(absent if none ever was) and whose `new_value` is `Cn.new_value`. -/
theorem insert_in_place_merge_law (b : ChangeBatch) (k : TrieKey) (l : List Change)
    (hne : l ≠ []) (hk : findChange? b k = none) :
    findChange? (l.foldl (fun acc c => insert_in_place acc k c) b) k
      = some ⟨l.findSome? Change.old_value, (l.getLast hne).new_value⟩ := by
  match l with
  | c :: t =>
    simp only [List.foldl_cons]
    rw [findChange?_foldl_insert t (findChange?_insert_self_of_none c hk),
      foldl_mergeChange_eq]
    have hfind : (c :: t).findSome? Change.old_value
        = c.old_value.or (t.findSome? Change.old_value) := by
      rcases h : c.old_value with _ | v <;> simp [List.findSome?_cons, h, Option.or]
    rw [List.getLast_eq_getLastD, hfind]

/-- Witness for C2: two concrete changes merged into an empty batch. -/
theorem insert_in_place_merge_law_witness :
    findChange?
        ([Change.mk none (some [4]), Change.mk (some [5]) (some [6])].foldl
          (fun acc c => insert_in_place acc ⟨1, [2]⟩ c) []) ⟨1, [2]⟩
      = some ⟨some [5], some [6]⟩ :=
  insert_in_place_merge_law [] ⟨1, [2]⟩
    [Change.mk none (some [4]), Change.mk (some [5]) (some [6])] (by decide) (by decide)

/-- C7: re-inserting, for a key `k` present in the batch, the very change the
batch currently stores for `k` leaves the batch unchanged. -/
theorem insert_in_place_self_idempotent (b : ChangeBatch) (k : TrieKey) (c : Change)
    (h : findChange? b k = some c) :
    insert_in_place b k c = b := by
  induction b with
  | nil => simp [findChange?] at h
  | cons hd rest ih =>
    obtain ⟨k', e'⟩ := hd
    by_cases hk : k' = k
    · simp only [findChange?, hk, if_true] at h
      cases h
      simp [insert_in_place, hk, Option.or_self]
    · simp only [findChange?, hk, if_false] at h
      simp [insert_in_place, hk, ih h]

/-- Witness for C7: re-merging the stored change of a present key. -/
theorem insert_in_place_self_idempotent_witness :
    insert_in_place [(⟨1, [2]⟩, ⟨some [3], none⟩)] ⟨1, [2]⟩ ⟨some [3], none⟩
      = [(⟨1, [2]⟩, ⟨some [3], none⟩)] :=
  insert_in_place_self_idempotent [(⟨1, [2]⟩, ⟨some [3], none⟩)] ⟨1, [2]⟩
    ⟨some [3], none⟩ (by decide)

/-! ## Serialization lemmas -/

theorem recordKey_eq (id : Bytes) (k : TrieKey) (side : Nat) :
    recordKey id k side = id ++ [KEY_SEPARATOR] ++ k.payload ++ [k.variant, side] := by
  simp [recordKey]

theorem serialize_cons (id : Bytes) (e : TrieKey × Change) (rest : ChangeBatch) :
    ChangeBatch.serialize (e :: rest) id
      = serializeEntry id e.1 e.2 ++ ChangeBatch.serialize rest id := by
  simp [ChangeBatch.serialize]

theorem filter_ne_key_eq_self {rest : ChangeBatch} {k : TrieKey}
    (h : ¬ k ∈ rest.map Prod.fst) :
    rest.filter (fun e => decide (e.1 ≠ k)) = rest := by
  apply List.filter_eq_self.mpr
  intro e he
  simp only [decide_eq_true_eq]
  intro hek
  exact h (hek ▸ List.mem_map_of_mem Prod.fst he)

/-- C4: `serialize` emits zero records for a key whose stored change has both
sides present and byte-equal — its output over the whole batch coincides with
the output over the batch with that key's entry removed. -/
theorem serialize_noop_elision (id : Bytes) (b : ChangeBatch) (k : TrieKey) (c : Change)
    (v : Bytes) (hnd : (b.map Prod.fst).Nodup) (hm : (k, c) ∈ b)
    (ho : c.old_value = some v) (hn : c.new_value = some v) :
    ChangeBatch.serialize b id
      = ChangeBatch.serialize (b.filter fun e => decide (e.1 ≠ k)) id := by
  induction b with
  | nil => simp at hm
  | cons hd rest ih =>
    simp only [List.map_cons, List.nodup_cons] at hnd
    obtain ⟨hnd1, hnd2⟩ := hnd
    rcases List.mem_cons.mp hm with heq | hmem
    · cases heq
      have hse : serializeEntry id k c = [] := by simp [serializeEntry, ho, hn]
      rw [serialize_cons, hse, List.nil_append, List.filter_cons, if_neg (by simp),
        filter_ne_key_eq_self hnd1]
    · have hne : hd.1 ≠ k := by
        intro h
        exact hnd1 (h ▸ List.mem_map_of_mem Prod.fst hmem)
      rw [serialize_cons, List.filter_cons, if_pos (by simp [hne]), serialize_cons,
        ih hnd2 hmem]

/-- Witness for C4: a no-op entry beside a live entry contributes nothing. -/
theorem serialize_noop_elision_witness :
    ChangeBatch.serialize
        [(⟨2, [1]⟩, ⟨some [9], some [9]⟩), (⟨2, [4]⟩, ⟨none, some [5]⟩)] [7]
      = ChangeBatch.serialize
          (([(⟨2, [1]⟩, ⟨some [9], some [9]⟩), (⟨2, [4]⟩, ⟨none, some [5]⟩)] :
              ChangeBatch).filter fun e => decide (e.1 ≠ ⟨2, [1]⟩)) [7] :=
  serialize_noop_elision [7]
    [(⟨2, [1]⟩, ⟨some [9], some [9]⟩), (⟨2, [4]⟩, ⟨none, some [5]⟩)]
    ⟨2, [1]⟩ ⟨some [9], some [9]⟩ [9] (by decide) (by decide) rfl rfl

theorem insert_in_place_length (b : ChangeBatch) (k : TrieKey) (c : Change) :
    (insert_in_place b k c).length
      = if k ∈ b.map Prod.fst then b.length else b.length + 1 := by
  induction b with
  | nil => simp [insert_in_place]
  | cons hd rest ih =>
    obtain ⟨k', e'⟩ := hd
    by_cases hk : k' = k
    · simp [insert_in_place, hk]
    · have : ¬ k = k' := fun h => hk h.symm
      simp only [insert_in_place, hk, if_false, List.length_cons, List.map_cons,
        List.mem_cons, this, false_or, ih]
      by_cases hmem : k ∈ rest.map Prod.fst <;> simp [hmem]

theorem serializeEntry_length_le (id : Bytes) (k : TrieKey) (c : Change) :
    (serializeEntry id k c).length ≤ 2 := by
  rcases hco : c.old_value with _ | ov <;> rcases hcn : c.new_value with _ | nv <;>
    simp [serializeEntry, hco, hcn]
  split <;> simp

/-- C8: `insert_in_place` and `serialize` are total: both are plain functions
of the embedding (no `Except`, unlike `deserialize`), and as a non-vacuous
certificate their outputs are exactly characterized / bounded in size for
every input. -/
theorem insert_in_place_serialize_total (b : ChangeBatch) (k : TrieKey) (c : Change)
    (id : Bytes) :
    (insert_in_place b k c).length
        = (if k ∈ b.map Prod.fst then b.length else b.length + 1) ∧
      (ChangeBatch.serialize b id).length ≤ 2 * b.length := by
  refine ⟨insert_in_place_length b k c, ?_⟩
  induction b with
  | nil => simp [ChangeBatch.serialize]
  | cons hd rest ih =>
    rw [serialize_cons, List.length_append]
    have h1 := serializeEntry_length_le id hd.1 hd.2
    simp only [List.length_cons]
    omega

/-- C3: every record `serialize` emits comes from some batch entry `(k, c)`
and has key bytes `id ++ [0x00] ++ k.payload ++ [k.variant, side]` where the
side byte is `0x01` for the old value and `0x00` for the new value, and value
bytes equal to that side's raw bytes; and the spec's concrete scenario 3
produces exactly its two stated records. -/
theorem serialize_record_format (id : Bytes) (b : ChangeBatch) (r : Bytes × Bytes)
    (hr : r ∈ ChangeBatch.serialize b id) :
    (∃ k c, (k, c) ∈ b ∧
      ((r.1 = id ++ [KEY_SEPARATOR] ++ k.payload ++ [k.variant, OLD_VALUE] ∧
          c.old_value = some r.2) ∨
        (r.1 = id ++ [KEY_SEPARATOR] ++ k.payload ++ [k.variant, NEW_VALUE] ∧
          c.new_value = some r.2))) ∧
    ChangeBatch.serialize [(⟨2, [1, 2, 3]⟩, ⟨some [88], some [89]⟩)] [7]
      = [([7, 0, 1, 2, 3, 2, 1], [88]), ([7, 0, 1, 2, 3, 2, 0], [89])] := by
  constructor
  · obtain ⟨e, he, hre⟩ := List.mem_flatMap.mp hr
    obtain ⟨k, c⟩ := e
    refine ⟨k, c, he, ?_⟩
    rcases hco : c.old_value with _ | ov <;> rcases hcn : c.new_value with _ | nv <;>
      simp only [serializeEntry, hco, hcn] at hre
    · simp at hre
    · simp only [List.mem_singleton] at hre
      subst hre
      exact Or.inr ⟨recordKey_eq id k NEW_VALUE, rfl⟩
    · simp only [List.mem_singleton] at hre
      subst hre
      exact Or.inl ⟨recordKey_eq id k OLD_VALUE, rfl⟩
    · by_cases hov : ov = nv
      · simp [hov] at hre
      · simp only [hov, if_false, List.mem_cons, List.mem_singleton,
          List.not_mem_nil, or_false] at hre
        rcases hre with hre | hre <;> subst hre
        · exact Or.inl ⟨recordKey_eq id k OLD_VALUE, rfl⟩
        · exact Or.inr ⟨recordKey_eq id k NEW_VALUE, rfl⟩
  · decide

/-- Witness for C3: the old-value record of scenario 3 decodes to its entry. -/
theorem serialize_record_format_witness :
    (∃ k c,
      (k, c) ∈ ([(⟨2, [1, 2, 3]⟩, ⟨some [88], some [89]⟩)] : ChangeBatch) ∧
      (([7, 0, 1, 2, 3, 2, 1] : Bytes)
            = [7] ++ [KEY_SEPARATOR] ++ k.payload ++ [k.variant, OLD_VALUE] ∧
          c.old_value = some [88] ∨
        ([7, 0, 1, 2, 3, 2, 1] : Bytes)
            = [7] ++ [KEY_SEPARATOR] ++ k.payload ++ [k.variant, NEW_VALUE] ∧
          c.new_value = some [88])) ∧
    ChangeBatch.serialize [(⟨2, [1, 2, 3]⟩, ⟨some [88], some [89]⟩)] [7]
      = [([7, 0, 1, 2, 3, 2, 1], [88]), ([7, 0, 1, 2, 3, 2, 0], [89])] :=
  serialize_record_format [7] [(⟨2, [1, 2, 3]⟩, ⟨some [88], some [89]⟩)]
    ([7, 0, 1, 2, 3, 2, 1], [88]) (by decide)

/-- C10: for a batch entry with both sides present and unequal, the emitted
old-value record (side `0x01`) immediately precedes the emitted new-value
record (side `0x00`) in `serialize`'s output. -/
theorem serialize_old_immediately_before_new (id : Bytes) (b : ChangeBatch)
    (k : TrieKey) (c : Change) (ov nv : Bytes) (hm : (k, c) ∈ b)
    (ho : c.old_value = some ov) (hn : c.new_value = some nv) (hne : ov ≠ nv) :
    ∃ l₁ l₂, ChangeBatch.serialize b id
      = l₁ ++ (recordKey id k OLD_VALUE, ov) :: (recordKey id k NEW_VALUE, nv) :: l₂ := by
  induction b with
  | nil => simp at hm
  | cons hd rest ih =>
    rcases List.mem_cons.mp hm with heq | hmem
    · cases heq
      refine ⟨[], ChangeBatch.serialize rest id, ?_⟩
      rw [serialize_cons]
      simp [serializeEntry, ho, hn, hne]
    · obtain ⟨l₁, l₂, hl⟩ := ih hmem
      refine ⟨serializeEntry id hd.1 hd.2 ++ l₁, l₂, ?_⟩
      rw [serialize_cons, hl, List.append_assoc]

/-- Witness for C10: concrete adjacency of the two records of one entry. -/
theorem serialize_old_immediately_before_new_witness :
    ∃ l₁ l₂,
      ChangeBatch.serialize
          [(⟨2, [4]⟩, ⟨none, some [5]⟩), (⟨2, [1]⟩, ⟨some [8], some [9]⟩)] [7]
        = l₁ ++ (recordKey [7] ⟨2, [1]⟩ OLD_VALUE, [8])
            :: (recordKey [7] ⟨2, [1]⟩ NEW_VALUE, [9]) :: l₂ :=
  serialize_old_immediately_before_new [7]
    [(⟨2, [4]⟩, ⟨none, some [5]⟩), (⟨2, [1]⟩, ⟨some [8], some [9]⟩)]
    ⟨2, [1]⟩ ⟨some [8], some [9]⟩ [8] [9] (by decide) rfl rfl (by decide)

/-! ## Deserialization failure lemmas -/

theorem deserializeStep_malformed {idLen : Nat} {r : Bytes × Bytes}
    (h : r.1.length < idLen + 3) (s : DeState) :
    deserializeStep idLen s r = Except.error DeserializeError.MalformedKey := by
  unfold deserializeStep
  rw [if_pos h]

theorem deserializeStep_unknown_tag {idLen : Nat} {r : Bytes × Bytes}
    (h1 : idLen + 3 ≤ r.1.length) (h2 : r.1.getLastD 0 ≠ NEW_VALUE)
    (h3 : r.1.getLastD 0 ≠ OLD_VALUE) (s : DeState) :
    deserializeStep idLen s r = Except.error DeserializeError.UnknownSideTag := by
  simp only [deserializeStep]
  rw [if_neg (by omega), if_neg h2, if_neg h3]

theorem deserializeStep_ok_of_wellFormed {idLen : Nat} {r : Bytes × Bytes}
    (h : wellFormedRecord idLen r) (s : DeState) :
    ∃ s', deserializeStep idLen s r = Except.ok s' := by
  obtain ⟨hlen, htag⟩ := h
  simp only [deserializeStep]
  rw [if_neg (by omega)]
  rcases htag with htag | htag
  · rw [if_pos htag]
    exact ⟨_, rfl⟩
  · by_cases hnew : r.1.getLastD 0 = NEW_VALUE
    · rw [if_pos hnew]
      exact ⟨_, rfl⟩
    · rw [if_neg hnew, if_pos htag]
      exact ⟨_, rfl⟩

theorem deserializeLoop_cons (idLen : Nat) (s : DeState) (r : Bytes × Bytes)
    (rs : List (Bytes × Bytes)) :
    deserializeLoop idLen s (r :: rs)
      = match deserializeStep idLen s r with
        | Except.ok s' => deserializeLoop idLen s' rs
        | Except.error e => Except.error e := rfl

theorem deserializeLoop_append (idLen : Nat) (xs ys : List (Bytes × Bytes)) :
    ∀ s : DeState,
      deserializeLoop idLen s (xs ++ ys)
        = match deserializeLoop idLen s xs with
          | Except.ok s' => deserializeLoop idLen s' ys
          | Except.error e => Except.error e := by
  induction xs with
  | nil => intro s; rfl
  | cons x xs ih =>
    intro s
    rw [List.cons_append, deserializeLoop_cons, deserializeLoop_cons]
    cases deserializeStep idLen s x with
    | ok s' => exact ih s'
    | error e => rfl

theorem deserializeLoop_ok_of_wellFormed {idLen : Nat} {pre : List (Bytes × Bytes)}
    (hpre : ∀ p ∈ pre, wellFormedRecord idLen p) :
    ∀ s : DeState, ∃ s', deserializeLoop idLen s pre = Except.ok s' := by
  induction pre with
  | nil => intro s; exact ⟨s, rfl⟩
  | cons p ps ih =>
    intro s
    obtain ⟨s1, hs1⟩ := deserializeStep_ok_of_wellFormed (hpre p (by simp)) s
    obtain ⟨s2, hs2⟩ := ih (fun q hq => hpre q (by simp [hq])) s1
    refine ⟨s2, ?_⟩
    rw [deserializeLoop_cons, hs1]
    exact hs2

/-- C5: in `deserialize`, after any run of well-formed records, a record whose
key is shorter than `id.to_bytes().length + 3` makes the whole call fail with
`MalformedKey`, and a long-enough record whose final side-tag byte is neither
`0x00` nor `0x01` makes it fail with `UnknownSideTag`. -/
theorem deserialize_malformed_detection (id : Bytes) (pre : List (Bytes × Bytes))
    (r : Bytes × Bytes) (rest : List (Bytes × Bytes))
    (hpre : ∀ p ∈ pre, wellFormedRecord id.length p) :
    (r.1.length < id.length + 3 →
      ChangeBatch.deserialize id (pre ++ r :: rest)
        = Except.error DeserializeError.MalformedKey) ∧
    (id.length + 3 ≤ r.1.length → r.1.getLastD 0 ≠ NEW_VALUE →
      r.1.getLastD 0 ≠ OLD_VALUE →
      ChangeBatch.deserialize id (pre ++ r :: rest)
        = Except.error DeserializeError.UnknownSideTag) := by
  obtain ⟨s1, hs1⟩ :=
    deserializeLoop_ok_of_wellFormed hpre (⟨[], Change.default, none⟩ : DeState)
  have hsplit : deserializeLoop id.length ⟨[], Change.default, none⟩ (pre ++ r :: rest)
      = deserializeLoop id.length s1 (r :: rest) := by
    rw [deserializeLoop_append, hs1]
  constructor
  · intro hlen
    have hloop : deserializeLoop id.length s1 (r :: rest)
        = Except.error DeserializeError.MalformedKey := by
      rw [deserializeLoop_cons, deserializeStep_malformed hlen]
    unfold ChangeBatch.deserialize
    rw [hsplit, hloop]
  · intro hlen h2 h3
    have hloop : deserializeLoop id.length s1 (r :: rest)
        = Except.error DeserializeError.UnknownSideTag := by
      rw [deserializeLoop_cons, deserializeStep_unknown_tag hlen h2 h3]
    unfold ChangeBatch.deserialize
    rw [hsplit, hloop]

/-- Witness for C5: a short key after no records yields `MalformedKey`; an
unrecognized trailing tag after one good record yields `UnknownSideTag`. -/
theorem deserialize_malformed_detection_witness :
    ChangeBatch.deserialize [] [([0], [])]
        = Except.error DeserializeError.MalformedKey ∧
      ChangeBatch.deserialize [9] [([9, 0, 1, 0], [2]), ([9, 0, 1, 7], [3])]
        = Except.error DeserializeError.UnknownSideTag :=
  ⟨(deserialize_malformed_detection [] [] ([0], []) [] (by decide)).1 (by decide),
    (deserialize_malformed_detection [9] [([9, 0, 1, 0], [2])] ([9, 0, 1, 7], [3]) []
        (by decide)).2
      (by decide) (by decide) (by decide)⟩

/-- C6: the `deserialize` code reaches its two abort conditions at these
concrete inputs; in the source both are `panic!` sites (process-ending), here
modelled as the corresponding error values. -/
theorem deserialize_failure_conditions_reached :
    ChangeBatch.deserialize [3] [([3, 0, 9], [1])]
        = Except.error DeserializeError.MalformedKey ∧
      ChangeBatch.deserialize [3] [([3, 0, 9, 7], [1])]
        = Except.error DeserializeError.UnknownSideTag := by
  decide

/-! ## No inert entry ever enters a deserialized batch (C9) -/

theorem nonInert_insert_in_place {b : ChangeBatch} {k : TrieKey} {c : Change}
    (hb : ∀ e ∈ b, nonInert e.2) (hc : nonInert c) :
    ∀ e ∈ insert_in_place b k c, nonInert e.2 := by
  induction b with
  | nil =>
    intro e he
    simp only [insert_in_place, List.mem_singleton] at he
    subst he
    exact hc
  | cons hd rest ih =>
    obtain ⟨k', e'⟩ := hd
    intro e he
    by_cases hk : k' = k
    · simp only [insert_in_place, hk, if_true, List.mem_cons] at he
      rcases he with he | he
      · subst he
        rcases hc with hco | hcn
        · left
          rcases h' : e'.old_value with _ | w <;> simp [Option.or, h', hco] at hco ⊢
        · right
          exact hcn
      · exact hb e (List.mem_cons_of_mem _ he)
    · simp only [insert_in_place, hk, if_false, List.mem_cons] at he
      rcases he with he | he
      · subst he
        exact hb (k', e') (List.mem_cons_self ..)
      · exact ih (fun q hq => hb q (List.mem_cons_of_mem _ hq)) e he

/-- The loop invariant for C9: every batch entry is non-inert, and whenever a
last key is recorded the accumulating change is non-inert. -/
def stateInv (s : DeState) : Prop :=
  (∀ e ∈ s.batch, nonInert e.2) ∧ (s.lastKey.isSome = true → nonInert s.current)

theorem deserializeStep_preserves_inv {idLen : Nat} {s s' : DeState}
    {r : Bytes × Bytes} (h : stateInv s)
    (hs : deserializeStep idLen s r = Except.ok s') : stateInv s' := by
  obtain ⟨hbatch, hcur⟩ := h
  rcases s with ⟨batch, current, lastKey⟩
  simp only [deserializeStep] at hs
  by_cases hlen : r.1.length < idLen + 3
  · rw [if_pos hlen] at hs
    exact absurd hs (by simp)
  · rw [if_neg hlen] at hs
    cases lastKey with
    | none =>
      simp only at hs
      split at hs <;> rename_i htag
      · cases hs
        exact ⟨hbatch, fun _ => Or.inr (by simp)⟩
      · split at hs <;> rename_i htag2
        · cases hs
          exact ⟨hbatch, fun _ => Or.inl (by simp)⟩
        · exact absurd hs (by simp)
    | some lk =>
      have hcur' : nonInert current := hcur (by simp)
      simp only at hs
      by_cases hlk : lk ≠
        TrieKey.from_variant_and_bytes (r.1.dropLast.getLastD 0)
          (r.1.dropLast.dropLast.drop (idLen + 1))
      · rw [if_pos hlk] at hs
        have hb' : ∀ e ∈ insert_in_place batch lk current, nonInert e.2 :=
          nonInert_insert_in_place hbatch hcur'
        split at hs <;> rename_i htag
        · cases hs
          exact ⟨hb', fun _ => Or.inr (by simp)⟩
        · split at hs <;> rename_i htag2
          · cases hs
            exact ⟨hb', fun _ => Or.inl (by simp)⟩
          · exact absurd hs (by simp)
      · rw [if_neg hlk] at hs
        split at hs <;> rename_i htag
        · cases hs
          exact ⟨hbatch, fun _ => Or.inr (by simp)⟩
        · split at hs <;> rename_i htag2
          · cases hs
            exact ⟨hbatch, fun _ => Or.inl (by simp)⟩
          · exact absurd hs (by simp)

theorem deserializeLoop_preserves_inv {idLen : Nat} {rs : List (Bytes × Bytes)} :
    ∀ {s s' : DeState}, stateInv s → deserializeLoop idLen s rs = Except.ok s' →
      stateInv s' := by
  induction rs with
  | nil =>
    intro s s' h hs
    cases hs
    exact h
  | cons r rs ih =>
    intro s s' h hs
    rw [deserializeLoop_cons] at hs
    rcases hstep : deserializeStep idLen s r with e | s1
    · rw [hstep] at hs
      exact absurd hs (by simp)
    · rw [hstep] at hs
      exact ih (deserializeStep_preserves_inv h hstep) hs

/-- C9: whenever `deserialize` succeeds, every entry of the returned batch
has at least one side present — no inert change is ever stored. -/
theorem deserialize_no_inert_entries (id : Bytes) (records : List (Bytes × Bytes))
    (b : ChangeBatch) (hds : ChangeBatch.deserialize id records = Except.ok b) :
    ∀ k c, (k, c) ∈ b → nonInert c := by
  intro k c hkc
  unfold ChangeBatch.deserialize at hds
  rcases hloop : deserializeLoop id.length ⟨[], Change.default, none⟩ records with e | s
  · rw [hloop] at hds
    exact absurd hds (by simp)
  · rw [hloop] at hds
    have hinv : stateInv s := by
      refine deserializeLoop_preserves_inv ?_ hloop
      exact ⟨by simp, by simp⟩
    cases hds
    obtain ⟨hbatch, _⟩ := hinv
    rcases s with ⟨batch, current, lastKey⟩
    cases lastKey with
    | none =>
      simp only [finishDe] at hkc
      exact hbatch (k, c) hkc
    | some lk =>
      simp only [finishDe] at hkc
      by_cases hg : current.new_value.isSome || current.old_value.isSome
      · rw [if_pos hg] at hkc
        have hcur : nonInert current := by
          rcases Bool.or_eq_true_iff.mp hg with h | h
          · exact Or.inr h
          · exact Or.inl h
        exact nonInert_insert_in_place hbatch hcur (k, c) hkc
      · rw [if_neg hg] at hkc
        exact hbatch (k, c) hkc

/-- Witness for C9: a concrete successful deserialization, checked non-inert. -/
theorem deserialize_no_inert_entries_witness :
    nonInert ⟨none, some [9]⟩ :=
  deserialize_no_inert_entries [7] [([7, 0, 5, 2, 0], [9])]
    [(⟨2, [5]⟩, ⟨none, some [9]⟩)] (by decide) ⟨2, [5]⟩ ⟨none, some [9]⟩ (by decide)

/-! ## Round trip (C1) -/

theorem from_variant_and_bytes_eta (k : TrieKey) :
    TrieKey.from_variant_and_bytes k.variant k.payload = k := rfl

theorem parse_recordKey (id : Bytes) (k : TrieKey) (side : Nat) :
    (recordKey id k side).getLastD 0 = side ∧
      (recordKey id k side).dropLast.getLastD 0 = k.variant ∧
      (recordKey id k side).dropLast.dropLast.drop (id.length + 1) = k.payload ∧
      ¬ (recordKey id k side).length < id.length + 3 := by
  have hdecomp : recordKey id k side
      = ((id ++ KEY_SEPARATOR :: k.payload) ++ [k.variant]) ++ [side] := by
    simp [recordKey]
  have hdrop1 : (recordKey id k side).dropLast = (id ++ KEY_SEPARATOR :: k.payload) ++ [k.variant] := by
    rw [hdecomp, List.dropLast_concat]
  have hdrop2 : (recordKey id k side).dropLast.dropLast = id ++ KEY_SEPARATOR :: k.payload := by
    rw [hdrop1, List.dropLast_concat]
  refine ⟨?_, ?_, ?_, ?_⟩
  · rw [hdecomp, List.getLastD_concat]
  · rw [hdrop1, List.getLastD_concat]
  · rw [hdrop2]
    have heq : id ++ KEY_SEPARATOR :: k.payload = (id ++ [KEY_SEPARATOR]) ++ k.payload := by
      simp
    have hlen : (id ++ [KEY_SEPARATOR]).length = id.length + 1 := by simp
    rw [heq, ← hlen, List.drop_left]
  · rw [hdecomp]
    simp only [List.length_append, List.length_cons, List.length_nil]
    omega

/-- The key-switch flush sub-step of one `deserialize` iteration, as a named
function of the state and the parsed trie key. -/
def flushFor (s : DeState) (k : TrieKey) : DeState :=
  match s.lastKey with
  | some lk =>
    if lk ≠ k then ⟨insert_in_place s.batch lk s.current, Change.default, s.lastKey⟩
    else s
  | none => s

theorem deserializeStep_on_record (id : Bytes) (k : TrieKey) (side : Nat) (v : Bytes)
    (s : DeState) :
    deserializeStep id.length s (recordKey id k side, v)
      = if side = NEW_VALUE then
          Except.ok
            ⟨(flushFor s k).batch, { (flushFor s k).current with new_value := some v },
              some k⟩
        else if side = OLD_VALUE then
          Except.ok
            ⟨(flushFor s k).batch, { (flushFor s k).current with old_value := some v },
              some k⟩
        else Except.error DeserializeError.UnknownSideTag := by
  obtain ⟨h1, h2, h3, h4⟩ := parse_recordKey id k side
  simp only [deserializeStep, flushFor]
  rw [if_neg h4]
  simp only [h1, h2, h3, from_variant_and_bytes_eta]

theorem deserializeLoop_cons_ok {idLen : Nat} {s s' : DeState} {r : Bytes × Bytes}
    {rs : List (Bytes × Bytes)} (h : deserializeStep idLen s r = Except.ok s') :
    deserializeLoop idLen s (r :: rs) = deserializeLoop idLen s' rs := by
  rw [deserializeLoop_cons, h]

theorem step_old_none (id : Bytes) (k : TrieKey) (ov : Bytes) (batch : ChangeBatch)
    (cur : Change) :
    deserializeStep id.length ⟨batch, cur, none⟩ (recordKey id k OLD_VALUE, ov)
      = Except.ok ⟨batch, { cur with old_value := some ov }, some k⟩ := by
  rw [deserializeStep_on_record, if_neg (by decide), if_pos rfl]
  rfl

theorem step_new_none (id : Bytes) (k : TrieKey) (nv : Bytes) (batch : ChangeBatch)
    (cur : Change) :
    deserializeStep id.length ⟨batch, cur, none⟩ (recordKey id k NEW_VALUE, nv)
      = Except.ok ⟨batch, { cur with new_value := some nv }, some k⟩ := by
  rw [deserializeStep_on_record, if_pos rfl]
  rfl

theorem flushFor_same (batch : ChangeBatch) (cur : Change) (k : TrieKey) :
    flushFor ⟨batch, cur, some k⟩ k = ⟨batch, cur, some k⟩ := by
  simp [flushFor]

theorem flushFor_diff (batch : ChangeBatch) (cur : Change) (k₀ k : TrieKey) (h : k₀ ≠ k) :
    flushFor ⟨batch, cur, some k₀⟩ k
      = ⟨insert_in_place batch k₀ cur, Change.default, some k₀⟩ := by
  simp [flushFor, h]

theorem step_old_same (id : Bytes) (k : TrieKey) (ov : Bytes) (batch : ChangeBatch)
    (cur : Change) :
    deserializeStep id.length ⟨batch, cur, some k⟩ (recordKey id k OLD_VALUE, ov)
      = Except.ok ⟨batch, { cur with old_value := some ov }, some k⟩ := by
  rw [deserializeStep_on_record, if_neg (by decide), if_pos rfl, flushFor_same]

theorem step_new_same (id : Bytes) (k : TrieKey) (nv : Bytes) (batch : ChangeBatch)
    (cur : Change) :
    deserializeStep id.length ⟨batch, cur, some k⟩ (recordKey id k NEW_VALUE, nv)
      = Except.ok ⟨batch, { cur with new_value := some nv }, some k⟩ := by
  rw [deserializeStep_on_record, if_pos rfl, flushFor_same]

theorem step_old_diff (id : Bytes) (k₀ k : TrieKey) (ov : Bytes) (batch : ChangeBatch)
    (cur : Change) (h : k₀ ≠ k) :
    deserializeStep id.length ⟨batch, cur, some k₀⟩ (recordKey id k OLD_VALUE, ov)
      = Except.ok
          ⟨insert_in_place batch k₀ cur, { Change.default with old_value := some ov },
            some k⟩ := by
  rw [deserializeStep_on_record, if_neg (by decide), if_pos rfl, flushFor_diff _ _ _ _ h]

theorem step_new_diff (id : Bytes) (k₀ k : TrieKey) (nv : Bytes) (batch : ChangeBatch)
    (cur : Change) (h : k₀ ≠ k) :
    deserializeStep id.length ⟨batch, cur, some k₀⟩ (recordKey id k NEW_VALUE, nv)
      = Except.ok
          ⟨insert_in_place batch k₀ cur, { Change.default with new_value := some nv },
            some k⟩ := by
  rw [deserializeStep_on_record, if_pos rfl, flushFor_diff _ _ _ _ h]

theorem noOp_false_ne {k : TrieKey} {ov nv : Bytes}
    (hno : isNoOpEntry (k, ⟨some ov, some nv⟩) = false) : ov ≠ nv := by
  simpa [isNoOpEntry] using hno

theorem deserializeLoop_block_start (id : Bytes) (k : TrieKey) (c : Change)
    (hno : isNoOpEntry (k, c) = false) (hni : nonInert c)
    (rest : List (Bytes × Bytes)) (batch : ChangeBatch) :
    deserializeLoop id.length ⟨batch, Change.default, none⟩
        (serializeEntry id k c ++ rest)
      = deserializeLoop id.length ⟨batch, c, some k⟩ rest := by
  obtain ⟨co, cn⟩ := c
  rcases co with _ | ov <;> rcases cn with _ | nv
  · exfalso
    rcases hni with h | h <;> simp at h
  · simp only [serializeEntry, List.cons_append, List.nil_append]
    rw [deserializeLoop_cons_ok (step_new_none id k nv batch Change.default)]
    rfl
  · simp only [serializeEntry, List.cons_append, List.nil_append]
    rw [deserializeLoop_cons_ok (step_old_none id k ov batch Change.default)]
    rfl
  · have hne : ov ≠ nv := noOp_false_ne hno
    simp only [serializeEntry, if_neg hne, List.cons_append, List.nil_append]
    rw [deserializeLoop_cons_ok (step_old_none id k ov batch Change.default),
      deserializeLoop_cons_ok
        (step_new_same id k nv batch { Change.default with old_value := some ov })]

theorem deserializeLoop_block_mid (id : Bytes) (k₀ k : TrieKey) (c : Change)
    (hk : k₀ ≠ k) (hno : isNoOpEntry (k, c) = false) (hni : nonInert c)
    (rest : List (Bytes × Bytes)) (batch : ChangeBatch) (cur : Change) :
    deserializeLoop id.length ⟨batch, cur, some k₀⟩
        (serializeEntry id k c ++ rest)
      = deserializeLoop id.length ⟨insert_in_place batch k₀ cur, c, some k⟩ rest := by
  obtain ⟨co, cn⟩ := c
  rcases co with _ | ov <;> rcases cn with _ | nv
  · exfalso
    rcases hni with h | h <;> simp at h
  · simp only [serializeEntry, List.cons_append, List.nil_append]
    rw [deserializeLoop_cons_ok (step_new_diff id k₀ k nv batch cur hk)]
    rfl
  · simp only [serializeEntry, List.cons_append, List.nil_append]
    rw [deserializeLoop_cons_ok (step_old_diff id k₀ k ov batch cur hk)]
    rfl
  · have hne : ov ≠ nv := noOp_false_ne hno
    simp only [serializeEntry, if_neg hne, List.cons_append, List.nil_append]
    rw [deserializeLoop_cons_ok (step_old_diff id k₀ k ov batch cur hk),
      deserializeLoop_cons_ok
        (step_new_same id k nv (insert_in_place batch k₀ cur)
          { Change.default with old_value := some ov })]

/-- Rebuilding a batch by re-inserting a list of entries in order. -/
def rebuild (b : ChangeBatch) (B : ChangeBatch) : ChangeBatch :=
  B.foldl (fun acc e => insert_in_place acc e.1 e.2) b

theorem insert_in_place_fresh {b : ChangeBatch} {k : TrieKey} (c : Change)
    (h : ¬ k ∈ b.map Prod.fst) :
    insert_in_place b k c = b ++ [(k, c)] := by
  induction b with
  | nil => rfl
  | cons hd rest ih =>
    obtain ⟨k', e'⟩ := hd
    simp only [List.map_cons, List.mem_cons, not_or] at h
    obtain ⟨h1, h2⟩ := h
    have : k' ≠ k := fun hh => h1 hh.symm
    simp [insert_in_place, this, ih h2]

theorem rebuild_fresh (B : ChangeBatch) :
    ∀ acc : ChangeBatch, (∀ e ∈ B, ¬ e.1 ∈ acc.map Prod.fst) →
      (B.map Prod.fst).Nodup → rebuild acc B = acc ++ B := by
  induction B with
  | nil => intro acc _ _; simp [rebuild]
  | cons hd B' ih =>
    intro acc hfresh hnd
    obtain ⟨k, c⟩ := hd
    simp only [List.map_cons, List.nodup_cons] at hnd
    obtain ⟨hnd1, hnd2⟩ := hnd
    have hk : ¬ k ∈ acc.map Prod.fst := hfresh (k, c) (List.mem_cons_self ..)
    have hstep : rebuild acc ((k, c) :: B') = rebuild (acc ++ [(k, c)]) B' := by
      simp [rebuild, List.foldl_cons, insert_in_place_fresh c hk]
    rw [hstep, ih (acc ++ [(k, c)]) ?_ hnd2]
    · simp
    · intro e he
      simp only [List.map_append, List.mem_append, List.map_cons, List.map_nil,
        List.mem_singleton, not_or]
      refine ⟨fun hc => hfresh e (List.mem_cons_of_mem _ he) hc, fun hc => ?_⟩
      exact hnd1 (hc ▸ List.mem_map_of_mem Prod.fst he)

theorem roundtrip_loop (id : Bytes) (B : ChangeBatch) :
    ∀ (batch : ChangeBatch) (k₀ : TrieKey) (c₀ : Change),
      ¬ k₀ ∈ B.map Prod.fst → (B.map Prod.fst).Nodup →
      (∀ e ∈ B, isNoOpEntry e = false) → (∀ e ∈ B, nonInert e.2) → nonInert c₀ →
      ∃ s, deserializeLoop id.length ⟨batch, c₀, some k₀⟩ (ChangeBatch.serialize B id)
          = Except.ok s ∧
        finishDe s = rebuild (insert_in_place batch k₀ c₀) B := by
  induction B with
  | nil =>
    intro batch k₀ c₀ _ _ _ _ hni
    refine ⟨⟨batch, c₀, some k₀⟩, rfl, ?_⟩
    have hguard : (c₀.new_value.isSome || c₀.old_value.isSome) = true := by
      rcases hni with h | h <;> simp [h]
    simp [finishDe, hguard, rebuild]
  | cons hd B' ih =>
    intro batch k₀ c₀ hk₀ hnd hnoop hinert hni
    obtain ⟨k, c⟩ := hd
    simp only [List.map_cons, List.mem_cons, not_or] at hk₀
    obtain ⟨hk₀1, hk₀2⟩ := hk₀
    simp only [List.map_cons, List.nodup_cons] at hnd
    obtain ⟨hnd1, hnd2⟩ := hnd
    rw [serialize_cons,
      deserializeLoop_block_mid id k₀ k c hk₀1 (hnoop (k, c) (List.mem_cons_self ..))
        (hinert (k, c) (List.mem_cons_self ..)) _ batch c₀]
    obtain ⟨s, hs, hfin⟩ :=
      ih (insert_in_place batch k₀ c₀) k c hnd1 hnd2
        (fun e he => hnoop e (List.mem_cons_of_mem _ he))
        (fun e he => hinert e (List.mem_cons_of_mem _ he))
        (hinert (k, c) (List.mem_cons_self ..))
    exact ⟨s, hs, by rw [hfin]; rfl⟩

/-- C1 counterexample: the batch `[(k, {old: absent, new: absent})]` contains
no entry with both values present and byte-equal, yet serializing under
`id = [7]` emits no records (so any same-key grouping of them is again the
empty sequence) and deserializing yields the empty batch, which differs from
the original at `k`. -/
theorem roundtrip_counterexample :
    isNoOpEntry (⟨2, [1]⟩, ⟨none, none⟩) = false ∧
      ChangeBatch.serialize [(⟨2, [1]⟩, ⟨none, none⟩)] [7] = [] ∧
      ChangeBatch.deserialize [7]
          (ChangeBatch.serialize [(⟨2, [1]⟩, ⟨none, none⟩)] [7]) = Except.ok [] ∧
      findChange? [(⟨2, [1]⟩, ⟨none, none⟩)] ⟨2, [1]⟩ ≠ findChange? [] ⟨2, [1]⟩ := by
  decide

/-- C1 (amended): for a batch with distinct keys, no entry whose two sides
are both present and byte-equal, and no entry with both sides absent,
deserializing the records of `serialize` under the same identifier (records
of the same trie key are already adjacent in `serialize`'s output, so the
grouping sort is the identity) reconstructs the batch exactly. -/
theorem deserialize_serialize_roundtrip (id : Bytes) (B : ChangeBatch)
    (hnd : (B.map Prod.fst).Nodup)
    (hnoop : ∀ e ∈ B, isNoOpEntry e = false)
    (hinert : ∀ e ∈ B, nonInert e.2) :
    ChangeBatch.deserialize id (ChangeBatch.serialize B id) = Except.ok B := by
  cases B with
  | nil => rfl
  | cons hd B' =>
    obtain ⟨k, c⟩ := hd
    simp only [List.map_cons, List.nodup_cons] at hnd
    obtain ⟨hnd1, hnd2⟩ := hnd
    obtain ⟨s, hs, hfin⟩ :=
      roundtrip_loop id B' [] k c hnd1 hnd2
        (fun e he => hnoop e (List.mem_cons_of_mem _ he))
        (fun e he => hinert e (List.mem_cons_of_mem _ he))
        (hinert (k, c) (List.mem_cons_self ..))
    have hloop : deserializeLoop id.length ⟨[], Change.default, none⟩
        (ChangeBatch.serialize ((k, c) :: B') id) = Except.ok s := by
      rw [serialize_cons,
        deserializeLoop_block_start id k c (hnoop (k, c) (List.mem_cons_self ..))
          (hinert (k, c) (List.mem_cons_self ..)) _ []]
      exact hs
    have hre : rebuild (insert_in_place [] k c) B' = (k, c) :: B' := by
      have hinsert : insert_in_place [] k c = [(k, c)] := rfl
      rw [hinsert, rebuild_fresh B' [(k, c)] ?_ hnd2]
      · simp
      · intro e he
        simp only [List.map_cons, List.map_nil, List.mem_singleton]
        intro hc
        exact hnd1 (hc ▸ List.mem_map_of_mem Prod.fst he)
    unfold ChangeBatch.deserialize
    rw [hloop]
    show Except.ok (finishDe s) = Except.ok ((k, c) :: B')
    rw [hfin, hre]

/-- Witness for the amended C1: a concrete two-key batch round-trips. -/
theorem deserialize_serialize_roundtrip_witness :
    ChangeBatch.deserialize [7]
        (ChangeBatch.serialize
          [(⟨2, [1, 2, 3]⟩, ⟨some [88], some [89]⟩), (⟨1, [4]⟩, ⟨none, some [90]⟩)] [7])
      = Except.ok
          [(⟨2, [1, 2, 3]⟩, ⟨some [88], some [89]⟩), (⟨1, [4]⟩, ⟨none, some [90]⟩)] :=
  deserialize_serialize_roundtrip [7]
    [(⟨2, [1, 2, 3]⟩, ⟨some [88], some [89]⟩), (⟨1, [4]⟩, ⟨none, some [90]⟩)]
    (by decide) (by decide) (by decide)

end Bonsai
